import Mathlib

/-!
# goose-tinker: the migration reconciliation loop of `main.go`

A shallow embedding of `main` and `runPendingMigration` (file `main.go`) and the
properties of the reconciliation loop proved about it.

Modelling conventions
* `int64` versions are `Int` (the program never does arithmetic on them);
  timestamps are `Int` as well (only their order matters to the ledger query).
* A Go `error` is an `Option GoError` (`none` is `nil`).
* The database is explicit state (`DB`); everything the program does that is
  visible from outside is recorded as a list of `Event`s.
* Functions of the `goose` library that the program calls are fields of `Env`
  or, for `SortMigrations`, modelled from the specification.
-/

namespace GooseTinker

/-! ## Data model -/

/-- A non-nil Go `error`, identified by its message. -/
abbrev GoError := String

/-- The fields of `goose.DBConf` that `main.go` reads. -/
structure DBConf where
  MigrationsDir : String
  Env : String
  deriving DecidableEq, Repr

/-- The fields of `goose.Migration` that `main.go` reads. -/
structure Migration where
  Version : Int
  Source : String
  deriving DecidableEq, Repr

/-- The fields of `goose.MigrationRecord` that `runPendingMigration` scans into. -/
structure MigrationRecord where
  TStamp : Int
  IsApplied : Bool
  deriving DecidableEq, Repr

/-- One row of the table `goose_db_version`. -/
structure LedgerRow where
  version_id : Int
  tstamp : Int
  is_applied : Bool
  deriving DecidableEq, Repr

/-- The database behind the handle `db`: the rows of `goose_db_version` and, when
reads currently fail (connection lost, table missing, ...), the error they fail with. -/
structure DB where
  goose_db_version : List LedgerRow
  readError : Option GoError
  deriving DecidableEq, Repr

/-- What `db.QueryRow(q).Scan(...)` returns: `nil`, `sql.ErrNoRows` or another error. -/
inductive ScanError where
  | nil
  | ErrNoRows
  | other (e : GoError)
  deriving DecidableEq, Repr

/-- The externally visible actions of `main.go`, in program order. -/
inductive Event where
  /-- The ledger query `db.QueryRow(q).Scan(..)` for a version. -/
  | query (version : Int)
  /-- The call `goose.RunGoMigration(conf, source, version, true)`. -/
  | runGo (source : String) (version : Int)
  /-- The call `goose.RunSQLMigration(conf, db, source, version, true)`. -/
  | runSQL (source : String) (version : Int)
  /-- A call of `fmt.Println` with its two operands. -/
  | println (tag : String) (name : String)
  /-- The call `log.Fatalf("FAIL %v, quitting migration", err)`. -/
  | fatalf (err : GoError)
  /-- A call of `log.Fatal` in `main`. -/
  | fatal (err : GoError)
  /-- The line `goose: status for environment '%v'` printed by `main`. -/
  | printStatus (env : String)
  deriving DecidableEq, Repr

/-- The two migration executors of the `goose` library, as state transformers of
the database. `RunGoMigration` receives no handle in the program (it connects
through `conf`), so the database is passed to it as the last argument here. -/
structure Executors where
  RunGoMigration : DBConf → String → Int → Bool → DB → Option GoError × DB
  RunSQLMigration : DBConf → DB → String → Int → Bool → Option GoError × DB

/-! ## `path/filepath` (Unix) -/

/-- The loop of `filepath.Ext`, run over the reversed path: scan from the last
character until a dot (return the suffix from it) or a separator (return nothing). -/
def extAux : List Char → List Char → List Char
  | [], _ => []
  | c :: rest, acc =>
    if c = '/' then []
    else if c = '.' then '.' :: acc
    else extAux rest (c :: acc)

/-- Go `filepath.Ext`: the suffix beginning at the final dot in the final element of
the path, empty if there is no dot. -/
def Ext (path : String) : String :=
  String.mk (extAux path.data.reverse [])

/-- Go `filepath.Base`: the last element of the path, trailing slashes removed;
`"."` for the empty path and `"/"` for a path of slashes only. -/
def Base (path : String) : String :=
  if path.data = [] then "."
  else
    let stripped := path.data.reverse.dropWhile (fun c => c = '/')
    let last := stripped.takeWhile (fun c => c ≠ '/')
    if last = [] then "/" else String.mk last.reverse

/-! ## The ledger query -/

/-- The rows selected by
`SELECT tstamp, is_applied FROM goose_db_version WHERE version_id=%d ORDER BY tstamp DESC LIMIT 1`:
filter on `version_id`, order by `tstamp` descending, keep at most one row. Among
rows of equal `tstamp` the order is the table order (SQL leaves it open). -/
def selectLatest (rows : List LedgerRow) (version : Int) : List LedgerRow :=
  (((rows.filter (fun r => r.version_id = version)).insertionSort
      (fun a b => b.tstamp ≤ a.tstamp))).take 1

/-- The statement `e := db.QueryRow(q).Scan(&row.TStamp, &row.IsApplied)`: returns `e`
and the value of `row` afterwards. `row` is written only when a row was found. -/
def QueryRowScan (db : DB) (version : Int) (row : MigrationRecord) :
    ScanError × MigrationRecord :=
  match db.readError with
  | some e => (ScanError.other e, row)
  | none =>
    match selectLatest db.goose_db_version version with
    | [] => (ScanError.ErrNoRows, row)
    | r :: _ => (ScanError.nil, { TStamp := r.tstamp, IsApplied := r.is_applied })

/-! ## `runPendingMigration` and the loop of `main` -/

/-- The state after one call of `runPendingMigration`: the database, what the call
did, and whether it ended the process through `log.Fatalf`. -/
structure StepResult where
  db : DB
  events : List Event
  fatal : Bool
  deriving DecidableEq, Repr

/-- The `switch filepath.Ext(source)` of `runPendingMigration`: the value of `err`
after it, the database after it, and the executor call made (if any). -/
def dispatch (ex : Executors) (conf : DBConf) (db : DB) (version : Int) (source : String) :
    Option GoError × DB × List Event :=
  if Ext source = ".go" then
    let r := ex.RunGoMigration conf source version true db
    (r.1, r.2, [Event.runGo source version])
  else if Ext source = ".sql" then
    let r := ex.RunSQLMigration conf db source version true
    (r.1, r.2, [Event.runSQL source version])
  else (none, db, [])

/-- The function `runPendingMigration(conf, db, version, source)` of `main.go`;
`strictMode` is the value of the flag `-strict`. -/
def runPendingMigration (strictMode : Bool) (ex : Executors) (conf : DBConf) (db : DB)
    (version : Int) (source : String) : StepResult :=
  let scanned := QueryRowScan db version { TStamp := 0, IsApplied := false }
  let e := scanned.1
  let row := scanned.2
  if e ≠ ScanError.nil ∧ e ≠ ScanError.ErrNoRows then
    { db := db, events := [Event.query version], fatal := false }
  else if row.IsApplied then
    { db := db, events := [Event.query version], fatal := false }
  else
    let d := dispatch ex conf db version source
    match d.1 with
    | some err =>
      if strictMode then
        { db := d.2.1, events := Event.query version :: d.2.2 ++ [Event.fatalf err],
          fatal := true }
      else
        { db := d.2.1,
          events := Event.query version :: d.2.2 ++ [Event.println "FAIL " (Base source)],
          fatal := false }
    | none =>
      { db := d.2.1,
        events := Event.query version :: d.2.2 ++ [Event.println "OK   " (Base source)],
        fatal := false }

/-- The loop `for _, m := range migrations { runPendingMigration(conf, db, m.Version, m.Source) }`
of `main`. A call that ends in `log.Fatalf` ends the process, so the rest of the
list is not visited. -/
def runLoop (strictMode : Bool) (ex : Executors) (conf : DBConf) :
    DB → List Migration → StepResult
  | db, [] => { db := db, events := [], fatal := false }
  | db, m :: ms =>
    let s := runPendingMigration strictMode ex conf db m.Version m.Source
    if s.fatal then s
    else
      let r := runLoop strictMode ex conf s.db ms
      { db := r.db, events := s.events ++ r.events, fatal := r.fatal }

/-- Modelled from the spec: `goose.SortMigrations(migrations, true)`, a function of the
`goose` library that is not part of `main.go`. The specification says: "Sort descriptors
ascending by version (stable; version is already unique so no real tie-break needed,
but the sort must be total and deterministic)". -/
def SortMigrations (migrations : List Migration) : List Migration :=
  migrations.insertionSort (fun a b => a.Version ≤ b.Version)

/-- The last four lines of `main`: sort the migrations, then run the loop over them. -/
def mainLoop (strictMode : Bool) (ex : Executors) (conf : DBConf) (db : DB)
    (migrations : List Migration) : StepResult :=
  runLoop strictMode ex conf db (SortMigrations migrations)

/-- The database handle `db` of `main`: not opened yet, open, or closed by `db.Close()`. -/
inductive Handle where
  | unopened
  | opened
  | closed
  deriving DecidableEq, Repr

/-- What `main` reads from outside `main.go`: the flag `-strict` and the functions of
the `goose` library it calls (`NewDBConf` already applied to the flags). -/
structure Env where
  strictMode : Bool
  NewDBConf : Except GoError DBConf
  CollectMigrations : String → Int → Int → Except GoError (List Migration)
  OpenDBFromDBConf : DBConf → Except GoError DB
  EnsureDBVersion : DBConf → DB → Except GoError (Int × DB)
  exec : Executors

/-- The process when it ends: what it did, the state of the database handle, the exit
status, and the database (when it was opened). -/
structure Process where
  events : List Event
  handle : Handle
  exitCode : Nat
  db : Option DB
  deriving DecidableEq, Repr

/-- The function `dbConfFromFlags` of `main.go`: `goose.NewDBConf` applied to the flags
`-path`, `-env` and `-pgschema`. -/
def dbConfFromFlags (env : Env) : Except GoError DBConf :=
  env.NewDBConf

/-- The function `main` of `main.go`. `log.Fatal` and `log.Fatalf` print and call
`os.Exit(1)`, which ends the process at once without running deferred calls; the
deferred `db.Close()` runs when `main` returns. -/
def main (env : Env) : Process :=
  match dbConfFromFlags env with
  | Except.error err =>
    { events := [Event.fatal err], handle := Handle.unopened, exitCode := 1, db := none }
  | Except.ok conf =>
    match env.CollectMigrations conf.MigrationsDir 0 (2 ^ 63 - 1) with
    | Except.error e =>
      { events := [Event.fatal e], handle := Handle.unopened, exitCode := 1, db := none }
    | Except.ok migrations =>
      match env.OpenDBFromDBConf conf with
      | Except.error e =>
        { events := [Event.fatal ("couldn't open DB:" ++ e)], handle := Handle.unopened,
          exitCode := 1, db := none }
      | Except.ok db =>
        -- defer db.Close()
        match env.EnsureDBVersion conf db with
        | Except.error e =>
          { events := [Event.fatal e], handle := Handle.opened, exitCode := 1, db := some db }
        | Except.ok (_, db1) =>
          let r := mainLoop env.strictMode env.exec conf db1 migrations
          if r.fatal then
            { events := Event.printStatus conf.Env :: r.events, handle := Handle.opened,
              exitCode := 1, db := some r.db }
          else
            { events := Event.printStatus conf.Env :: r.events, handle := Handle.closed,
              exitCode := 0, db := some r.db }

/-! ## Vocabulary of the specification -/

/-- A version is pending in a database: the ledger query succeeds and returns no entry,
or a most recent entry with `is_applied = false`. -/
def isPending (db : DB) (version : Int) : Bool :=
  db.readError.isNone && (selectLatest db.goose_db_version version).all (fun r => !r.is_applied)

/-- A version is applied in a database: the ledger query succeeds and the most recent
entry has `is_applied = true`. -/
def isApplied (db : DB) (version : Int) : Bool :=
  db.readError.isNone && (selectLatest db.goose_db_version version).any (fun r => r.is_applied)

/-- An event is a call of one of the two executors. -/
def Event.isExecutorCall : Event → Bool
  | Event.runGo _ _ => true
  | Event.runSQL _ _ => true
  | _ => false

/-- The executor calls of a trace, in order. -/
def executorCalls (events : List Event) : List Event :=
  events.filter Event.isExecutorCall

/-- The versions the ledger was queried for, in order: one per call of
`runPendingMigration`, whose first action is the query. -/
def queriedVersions : List Event → List Int
  | [] => []
  | Event.query v :: rest => v :: queriedVersions rest
  | _ :: rest => queriedVersions rest

/-- The source has one of the two extensions `runPendingMigration` dispatches on. -/
def knownKind (source : String) : Bool :=
  decide (Ext source = ".go") || decide (Ext source = ".sql")

/-- An event reports a failed migration: a `FAIL` line or the fatal message. -/
def Event.isFailure : Event → Bool
  | Event.println tag _ => decide (tag = "FAIL ")
  | Event.fatalf _ => true
  | _ => false

/-- The database a run of the loop over `ms`, started on `db`, ends with. -/
def dbAfter (strictMode : Bool) (ex : Executors) (conf : DBConf) (db : DB)
    (ms : List Migration) : DB :=
  (runLoop strictMode ex conf db ms).db

/-- An executor call for `version` on `db` with result `r` kept to the assumption of the
idempotence property: when it succeeded, it appended to the ledger one row for its version
with `is_applied = true` and a timestamp later than the rows of that version already
there, and changed nothing else; when it failed, it left the database as it was. -/
def Recorded (version : Int) (db : DB) (r : Option GoError × DB) : Prop :=
  (r.1 = none →
    ∃ t : Int, (∀ row ∈ db.goose_db_version, row.version_id = version → row.tstamp < t) ∧
      r.2 = { db with goose_db_version := db.goose_db_version ++
        [{ version_id := version, tstamp := t, is_applied := true }] }) ∧
  (r.1 ≠ none → r.2 = db)

/-- The assumption the idempotence property makes on the executors: every call of either
executor is `Recorded`. -/
def RecordsSuccess (ex : Executors) : Prop :=
  ∀ (conf : DBConf) (source : String) (version : Int) (db : DB),
    Recorded version db (ex.RunGoMigration conf source version true db) ∧
    Recorded version db (ex.RunSQLMigration conf db source version true)

/-! ## Concrete inputs -/

/-- A configuration. -/
def demoConf : DBConf := { MigrationsDir := "db/migrations", Env := "development" }

/-- A reachable database with an empty ledger. -/
def emptyDB : DB := { goose_db_version := [], readError := none }

/-- A database whose reads fail. -/
def downDB : DB := { goose_db_version := [], readError := some "connection refused" }

/-- A timestamp later than every timestamp of the ledger. -/
def nextStamp (rows : List LedgerRow) : Int :=
  rows.foldr (fun r acc => max (r.tstamp + 1) acc) 0

/-- An executor body: fails for the versions listed in `failing` and leaves the database
as it is; otherwise succeeds and appends a row marking the version applied. -/
def demoRun (failing : List Int) (version : Int) (db : DB) : Option GoError × DB :=
  if version ∈ failing then (some "migration failed", db)
  else
    (none, { db with goose_db_version := db.goose_db_version ++
      [{ version_id := version, tstamp := nextStamp db.goose_db_version, is_applied := true }] })

/-- Executors that fail exactly for the versions listed in `failing`. -/
def demoExecutors (failing : List Int) : Executors :=
  { RunGoMigration := fun _ _ version _ db => demoRun failing version db
    RunSQLMigration := fun _ db _ version _ => demoRun failing version db }

/-- Migration 1, an SQL script. -/
def m1 : Migration := { Version := 1, Source := "db/migrations/001_users.sql" }

/-- Migration 2, a Go program. -/
def m2 : Migration := { Version := 2, Source := "db/migrations/002_orders.go" }

/-- Migration 3, an SQL script. -/
def m3 : Migration := { Version := 3, Source := "db/migrations/003_index.sql" }

/-- Migration 5, an SQL script. -/
def m5 : Migration := { Version := 5, Source := "db/migrations/005_tags.sql" }

/-- Migration 9, a Go program. -/
def m9 : Migration := { Version := 9, Source := "db/migrations/009_backfill.go" }

/-- A ledger in which version 7 was applied at time 100 and rolled back at time 200. -/
def rolledBackDB : DB :=
  { goose_db_version := [{ version_id := 7, tstamp := 100, is_applied := true },
      { version_id := 7, tstamp := 200, is_applied := false }],
    readError := none }

/-- An environment in which the library calls before the loop succeed, the database is
`db`, the migrations directory holds `migrations`, and the executors fail for `failing`. -/
def demoEnv (strictMode : Bool) (failing : List Int) (db : DB) (migrations : List Migration) :
    Env :=
  { strictMode := strictMode
    NewDBConf := Except.ok demoConf
    CollectMigrations := fun _ _ _ => Except.ok migrations
    OpenDBFromDBConf := fun _ => Except.ok db
    EnsureDBVersion := fun _ d => Except.ok (0, d)
    exec := demoExecutors failing }

/-! ## Basic facts about one call of `runPendingMigration` -/

theorem selectLatest_length (rows : List LedgerRow) (version : Int) :
    (selectLatest rows version).length ≤ 1 := by
  unfold selectLatest
  simp [List.length_take]

theorem selectLatest_cases (rows : List LedgerRow) (version : Int) :
    selectLatest rows version = [] ∨ ∃ r, selectLatest rows version = [r] := by
  have h := selectLatest_length rows version
  match hs : selectLatest rows version with
  | [] => exact Or.inl rfl
  | [r] => exact Or.inr ⟨r, rfl⟩
  | _ :: _ :: _ => rw [hs] at h; simp at h

theorem isPending_or_isApplied_or_error (db : DB) (version : Int) :
    isPending db version = true ∨ isApplied db version = true ∨ db.readError ≠ none := by
  unfold isPending isApplied
  cases hE : db.readError with
  | some e => simp
  | none =>
    rcases selectLatest_cases db.goose_db_version version with h | ⟨r, h⟩
    · simp [h]
    · cases hr : r.is_applied <;> simp [h, hr]

/-- A call for a version that is not pending only queries the ledger. -/
theorem runPendingMigration_of_not_pending (strictMode : Bool) (ex : Executors) (conf : DBConf)
    (db : DB) (version : Int) (source : String) (h : isPending db version = false) :
    runPendingMigration strictMode ex conf db version source =
      { db := db, events := [Event.query version], fatal := false } := by
  unfold isPending at h
  unfold runPendingMigration QueryRowScan
  cases hE : db.readError with
  | some e => simp
  | none =>
    rcases selectLatest_cases db.goose_db_version version with hs | ⟨r, hs⟩
    · simp [hE, hs] at h
    · simp [hE, hs] at h
      simp [hs, h]

/-- A call for a pending version runs the `switch` and reports on `err`. -/
theorem runPendingMigration_of_pending (strictMode : Bool) (ex : Executors) (conf : DBConf)
    (db : DB) (version : Int) (source : String) (h : isPending db version = true) :
    runPendingMigration strictMode ex conf db version source =
      match (dispatch ex conf db version source).1 with
      | some err =>
        if strictMode then
          { db := (dispatch ex conf db version source).2.1,
            events := Event.query version :: (dispatch ex conf db version source).2.2
              ++ [Event.fatalf err],
            fatal := true }
        else
          { db := (dispatch ex conf db version source).2.1,
            events := Event.query version :: (dispatch ex conf db version source).2.2
              ++ [Event.println "FAIL " (Base source)],
            fatal := false }
      | none =>
        { db := (dispatch ex conf db version source).2.1,
          events := Event.query version :: (dispatch ex conf db version source).2.2
            ++ [Event.println "OK   " (Base source)],
          fatal := false } := by
  unfold isPending at h
  unfold runPendingMigration QueryRowScan
  cases hE : db.readError with
  | some e => simp [hE] at h
  | none =>
    rcases selectLatest_cases db.goose_db_version version with hs | ⟨r, hs⟩
    · simp [hs]
    · simp [hE, hs] at h
      simp [hs, h]

/-! ## Basic facts about the loop -/

/-- One iteration of the loop. -/
theorem runLoop_cons (strictMode : Bool) (ex : Executors) (conf : DBConf) (db : DB)
    (m : Migration) (ms : List Migration) :
    runLoop strictMode ex conf db (m :: ms) =
      if (runPendingMigration strictMode ex conf db m.Version m.Source).fatal then
        runPendingMigration strictMode ex conf db m.Version m.Source
      else
        { db := (runLoop strictMode ex conf
            (runPendingMigration strictMode ex conf db m.Version m.Source).db ms).db,
          events := (runPendingMigration strictMode ex conf db m.Version m.Source).events ++
            (runLoop strictMode ex conf
              (runPendingMigration strictMode ex conf db m.Version m.Source).db ms).events,
          fatal := (runLoop strictMode ex conf
            (runPendingMigration strictMode ex conf db m.Version m.Source).db ms).fatal } := rfl

/-- Running the loop over `pre ++ post`: run it over `pre` and, unless that ended the
process, over `post` from the database reached. -/
theorem runLoop_append (strictMode : Bool) (ex : Executors) (conf : DBConf) (db : DB)
    (pre post : List Migration) :
    runLoop strictMode ex conf db (pre ++ post) =
      if (runLoop strictMode ex conf db pre).fatal then runLoop strictMode ex conf db pre
      else
        { db := (runLoop strictMode ex conf (runLoop strictMode ex conf db pre).db post).db,
          events := (runLoop strictMode ex conf db pre).events ++
            (runLoop strictMode ex conf (runLoop strictMode ex conf db pre).db post).events,
          fatal := (runLoop strictMode ex conf (runLoop strictMode ex conf db pre).db post).fatal } := by
  induction pre generalizing db with
  | nil => simp [runLoop]
  | cons m ms ih =>
    rw [List.cons_append, runLoop_cons, runLoop_cons]
    by_cases hs : (runPendingMigration strictMode ex conf db m.Version m.Source).fatal = true
    · simp [hs]
    · simp only [hs, Bool.false_eq_true, if_false]
      rw [ih]
      by_cases hr : (runLoop strictMode ex conf
          (runPendingMigration strictMode ex conf db m.Version m.Source).db ms).fatal = true
      · simp [hr]
      · simp [hr, List.append_assoc]

/-- Without `-strict` no call of `runPendingMigration` ends the process. -/
theorem runPendingMigration_lenient_fatal (ex : Executors) (conf : DBConf) (db : DB)
    (version : Int) (source : String) :
    (runPendingMigration false ex conf db version source).fatal = false := by
  unfold runPendingMigration
  simp only []
  split
  · rfl
  · split
    · rfl
    · split <;> simp

/-- Without `-strict` the loop runs to its end. -/
theorem runLoop_lenient_fatal (ex : Executors) (conf : DBConf) (db : DB) (ms : List Migration) :
    (runLoop false ex conf db ms).fatal = false := by
  induction ms generalizing db with
  | nil => rfl
  | cons m ms ih =>
    rw [runLoop_cons]
    simp only [runPendingMigration_lenient_fatal, Bool.false_eq_true, if_false]
    exact ih _

/-- The executor call of the `switch` for a source of a known kind. -/
theorem dispatch_events (ex : Executors) (conf : DBConf) (db : DB) (version : Int)
    (source : String) :
    (dispatch ex conf db version source).2.2 =
      if Ext source = ".go" then [Event.runGo source version]
      else if Ext source = ".sql" then [Event.runSQL source version]
      else [] := by
  unfold dispatch
  split
  · rfl
  · split <;> rfl

theorem isPending_false_of_isApplied (db : DB) (version : Int)
    (h : isApplied db version = true) : isPending db version = false := by
  unfold isApplied at h
  unfold isPending
  rcases selectLatest_cases db.goose_db_version version with hs | ⟨r, hs⟩
  · simp [hs] at h
  · simp [hs] at h
    simp [hs, h.2]

theorem isApplied_of_scan (db : DB) (version : Int)
    (hq : (QueryRowScan db version { TStamp := 0, IsApplied := false }).1 = ScanError.nil)
    (happ : (QueryRowScan db version { TStamp := 0, IsApplied := false }).2.IsApplied = true) :
    isApplied db version = true := by
  unfold QueryRowScan at hq happ
  unfold isApplied
  cases hE : db.readError with
  | some e => simp [hE] at hq
  | none =>
    rcases selectLatest_cases db.goose_db_version version with hs | ⟨r, hs⟩
    · simp [hE, hs] at hq
    · simp [hE, hs] at happ
      simp [hs, happ]

theorem isPending_false_of_readError (db : DB) (version : Int) (e : GoError)
    (h : db.readError = some e) : isPending db version = false := by
  simp [isPending, h]

/-- The executor call made for a pending version, by extension of the source. -/
theorem executorCalls_of_pending (strictMode : Bool) (ex : Executors) (conf : DBConf) (db : DB)
    (version : Int) (source : String) (hp : isPending db version = true) :
    (Ext source = ".sql" →
      executorCalls (runPendingMigration strictMode ex conf db version source).events =
          [Event.runSQL source version] ∧
        (runPendingMigration strictMode ex conf db version source).db =
          (ex.RunSQLMigration conf db source version true).2) ∧
    (Ext source = ".go" →
      executorCalls (runPendingMigration strictMode ex conf db version source).events =
          [Event.runGo source version] ∧
        (runPendingMigration strictMode ex conf db version source).db =
          (ex.RunGoMigration conf source version true db).2) := by
  rw [runPendingMigration_of_pending strictMode ex conf db version source hp]
  constructor
  · intro hext
    have hgo : Ext source ≠ ".go" := by rw [hext]; decide
    have hd : dispatch ex conf db version source =
        ((ex.RunSQLMigration conf db source version true).1,
          (ex.RunSQLMigration conf db source version true).2, [Event.runSQL source version]) := by
      simp [dispatch, hgo, hext]
    rw [hd]
    cases (ex.RunSQLMigration conf db source version true).1 <;> cases strictMode <;>
      simp [executorCalls, Event.isExecutorCall]
  · intro hext
    have hd : dispatch ex conf db version source =
        ((ex.RunGoMigration conf source version true db).1,
          (ex.RunGoMigration conf source version true db).2, [Event.runGo source version]) := by
      simp [dispatch, hext]
    rw [hd]
    cases (ex.RunGoMigration conf source version true db).1 <;> cases strictMode <;>
      simp [executorCalls, Event.isExecutorCall]

/-- The call for a pending version whose source has neither extension. -/
theorem runPendingMigration_of_unknown_kind (strictMode : Bool) (ex : Executors)
    (conf : DBConf) (db : DB) (version : Int) (source : String)
    (hp : isPending db version = true) (hk : knownKind source = false) :
    runPendingMigration strictMode ex conf db version source =
      { db := db, events := [Event.query version, Event.println "OK   " (Base source)],
        fatal := false } := by
  rw [runPendingMigration_of_pending strictMode ex conf db version source hp]
  simp only [knownKind, Bool.or_eq_false_iff, decide_eq_false_iff_not] at hk
  have hd : dispatch ex conf db version source = (none, db, []) := by
    simp [dispatch, hk.1, hk.2]
  rw [hd]
  rfl

/-! ## The ledger query returns the most recent row -/

theorem selectLatest_eq_nil_iff (rows : List LedgerRow) (version : Int) :
    selectLatest rows version = [] ↔ ∀ r ∈ rows, r.version_id ≠ version := by
  unfold selectLatest
  have hperm := List.perm_insertionSort (fun a b : LedgerRow => b.tstamp ≤ a.tstamp)
    (rows.filter (fun r => r.version_id = version))
  constructor
  · intro h r hr hv
    have hmem : r ∈ rows.filter (fun r => r.version_id = version) := by
      simp [List.mem_filter, hr, hv]
    have hmem2 := hperm.mem_iff.mpr hmem
    cases hs : List.insertionSort (fun a b : LedgerRow => b.tstamp ≤ a.tstamp)
        (rows.filter (fun r => r.version_id = version)) with
    | nil => rw [hs] at hmem2; simp at hmem2
    | cons a tl => rw [hs] at h; simp at h
  · intro h
    have hnil : rows.filter (fun r => r.version_id = version) = [] := by
      rw [List.filter_eq_nil_iff]
      intro r hr
      simpa using h r hr
    rw [hnil]
    rfl

theorem selectLatest_eq_singleton (rows : List LedgerRow) (version : Int) (r : LedgerRow)
    (h : selectLatest rows version = [r]) :
    r ∈ rows ∧ r.version_id = version ∧
      ∀ r2 ∈ rows, r2.version_id = version → r2.tstamp ≤ r.tstamp := by
  unfold selectLatest at h
  have hperm := List.perm_insertionSort (fun a b : LedgerRow => b.tstamp ≤ a.tstamp)
    (rows.filter (fun r => r.version_id = version))
  have htotal : IsTotal LedgerRow (fun a b : LedgerRow => b.tstamp ≤ a.tstamp) :=
    ⟨fun a b => le_total b.tstamp a.tstamp⟩
  have htrans : IsTrans LedgerRow (fun a b : LedgerRow => b.tstamp ≤ a.tstamp) :=
    ⟨fun _ _ _ hab hbc => le_trans hbc hab⟩
  have hsorted := List.sorted_insertionSort (fun a b : LedgerRow => b.tstamp ≤ a.tstamp)
    (rows.filter (fun r => r.version_id = version))
  cases hs : List.insertionSort (fun a b : LedgerRow => b.tstamp ≤ a.tstamp)
      (rows.filter (fun r => r.version_id = version)) with
  | nil => rw [hs] at h; simp at h
  | cons a tl =>
    rw [hs] at h hperm hsorted
    have har : a = r := by simpa using h
    subst har
    have hmem : a ∈ rows.filter (fun r => r.version_id = version) :=
      hperm.mem_iff.mp (List.mem_cons_self a tl)
    rw [List.mem_filter] at hmem
    refine ⟨hmem.1, by simpa using hmem.2, ?_⟩
    intro r2 hr2 hv2
    have hmem2 : r2 ∈ a :: tl := hperm.mem_iff.mpr (by simp [List.mem_filter, hr2, hv2])
    rcases List.mem_cons.mp hmem2 with heq | htl
    · rw [heq]
    · exact List.rel_of_sorted_cons hsorted r2 htl

/-! ## The order of the queries -/

theorem queriedVersions_append (a b : List Event) :
    queriedVersions (a ++ b) = queriedVersions a ++ queriedVersions b := by
  induction a with
  | nil => rfl
  | cons e rest ih => cases e <;> simp [queriedVersions, ih]

/-- Every call of `runPendingMigration` queries the ledger once, for its version. -/
theorem queriedVersions_runPendingMigration (strictMode : Bool) (ex : Executors) (conf : DBConf)
    (db : DB) (version : Int) (source : String) :
    queriedVersions (runPendingMigration strictMode ex conf db version source).events =
      [version] := by
  cases hp : isPending db version with
  | false =>
    rw [runPendingMigration_of_not_pending strictMode ex conf db version source hp]
    rfl
  | true =>
    rw [runPendingMigration_of_pending strictMode ex conf db version source hp, dispatch_events]
    cases (dispatch ex conf db version source).1 <;> cases strictMode <;>
      by_cases hgo : Ext source = ".go" <;> by_cases hsql : Ext source = ".sql" <;>
      simp [queriedVersions, hgo, hsql]

/-- The versions queried in a run of the loop are an initial part of the versions of the
list, and all of them when the run was not aborted. -/
theorem queriedVersions_runLoop (strictMode : Bool) (ex : Executors) (conf : DBConf)
    (db : DB) (ms : List Migration) :
    queriedVersions (runLoop strictMode ex conf db ms).events <+: ms.map Migration.Version ∧
      ((runLoop strictMode ex conf db ms).fatal = false →
        queriedVersions (runLoop strictMode ex conf db ms).events = ms.map Migration.Version) := by
  induction ms generalizing db with
  | nil => exact ⟨by simp [runLoop, queriedVersions], fun _ => rfl⟩
  | cons m ms ih =>
    rw [runLoop_cons]
    by_cases hs : (runPendingMigration strictMode ex conf db m.Version m.Source).fatal = true
    · simp only [hs, if_true, queriedVersions_runPendingMigration, List.map_cons]
      exact ⟨by simp [List.prefix_cons_inj], fun h => by simp at h⟩
    · simp only [hs, Bool.false_eq_true, if_false, queriedVersions_append,
        queriedVersions_runPendingMigration, List.map_cons, List.singleton_append]
      have h := ih (runPendingMigration strictMode ex conf db m.Version m.Source).db
      exact ⟨(List.prefix_cons_inj m.Version).mpr h.1, fun hf => by rw [h.2 hf]⟩

theorem SortMigrations_perm (migrations : List Migration) :
    ((SortMigrations migrations).map Migration.Version).Perm
      (migrations.map Migration.Version) :=
  (List.perm_insertionSort _ migrations).map _

theorem SortMigrations_sorted (migrations : List Migration)
    (hnodup : (migrations.map Migration.Version).Nodup) :
    ((SortMigrations migrations).map Migration.Version).Sorted (fun a b => a < b) := by
  have htotal : IsTotal Migration (fun a b : Migration => a.Version ≤ b.Version) :=
    ⟨fun a b => le_total a.Version b.Version⟩
  have htrans : IsTrans Migration (fun a b : Migration => a.Version ≤ b.Version) :=
    ⟨fun _ _ _ hab hbc => le_trans hab hbc⟩
  have hsorted := List.sorted_insertionSort (fun a b : Migration => a.Version ≤ b.Version)
    migrations
  have hle : ((SortMigrations migrations).map Migration.Version).Sorted (fun a b => a ≤ b) :=
    List.pairwise_map.mpr hsorted
  exact hle.lt_of_le ((SortMigrations_perm migrations).nodup_iff.mpr hnodup)

/-! ## Running the loop twice -/

theorem selectLatest_append_other (rows : List LedgerRow) (v v2 t : Int) (b : Bool)
    (h : v ≠ v2) :
    selectLatest (rows ++ [{ version_id := v, tstamp := t, is_applied := b }]) v2 =
      selectLatest rows v2 := by
  unfold selectLatest
  rw [List.filter_append]
  simp [h]

theorem selectLatest_append_new (rows : List LedgerRow) (v t : Int)
    (hlt : ∀ r ∈ rows, r.version_id = v → r.tstamp < t) :
    selectLatest (rows ++ [{ version_id := v, tstamp := t, is_applied := true }]) v =
      [{ version_id := v, tstamp := t, is_applied := true }] := by
  rcases selectLatest_cases (rows ++ [{ version_id := v, tstamp := t, is_applied := true }]) v
    with hs | ⟨r, hs⟩
  · have h := (selectLatest_eq_nil_iff _ _).mp hs
      { version_id := v, tstamp := t, is_applied := true } (by simp)
    exact absurd rfl h
  · obtain ⟨hmem, hv, hmax⟩ := selectLatest_eq_singleton _ _ r hs
    rw [hs]
    rcases List.mem_append.mp hmem with h | h
    · have h1 := hlt r h hv
      have h2 := hmax { version_id := v, tstamp := t, is_applied := true } (by simp) rfl
      have h3 : t ≤ r.tstamp := h2
      omega
    · simp only [List.mem_singleton] at h
      rw [h]

/-- Appending an applied row, later than the rows of its version, makes that version
applied and keeps every applied version applied. -/
theorem isApplied_append (db : DB) (v t : Int)
    (hlt : ∀ r ∈ db.goose_db_version, r.version_id = v → r.tstamp < t) :
    (db.readError = none →
      isApplied { db with goose_db_version := db.goose_db_version ++
        [{ version_id := v, tstamp := t, is_applied := true }] } v = true) ∧
    ∀ v2 : Int, isApplied db v2 = true →
      isApplied { db with goose_db_version := db.goose_db_version ++
        [{ version_id := v, tstamp := t, is_applied := true }] } v2 = true := by
  constructor
  · intro hread
    simp [isApplied, hread, selectLatest_append_new db.goose_db_version v t hlt]
  · intro v2 h
    by_cases hv : v = v2
    · subst hv
      have hread : db.readError = none := by
        cases hE : db.readError with
        | none => rfl
        | some e => simp [isApplied, hE] at h
      simp [isApplied, hread, selectLatest_append_new db.goose_db_version v t hlt]
    · unfold isApplied at h ⊢
      simp only [selectLatest_append_other db.goose_db_version v v2 t true hv]
      exact h

/-- A call of `runPendingMigration` that reports no failure, with executors that record
their successes: it does not end the process, reads stay as they were, applied versions
stay applied, and its own version is applied afterwards unless reads fail or the kind is
unknown. -/
theorem runPendingMigration_clean (strictMode : Bool) (ex : Executors) (conf : DBConf)
    (db : DB) (version : Int) (source : String) (hex : RecordsSuccess ex)
    (hclean : (runPendingMigration strictMode ex conf db version source).events.any
      Event.isFailure = false) :
    (runPendingMigration strictMode ex conf db version source).fatal = false ∧
      (runPendingMigration strictMode ex conf db version source).db.readError = db.readError ∧
      (∀ v2 : Int, isApplied db v2 = true →
        isApplied (runPendingMigration strictMode ex conf db version source).db v2 = true) ∧
      (isApplied (runPendingMigration strictMode ex conf db version source).db version = true ∨
        db.readError ≠ none ∨ knownKind source = false) := by
  cases hp : isPending db version with
  | false =>
    rw [runPendingMigration_of_not_pending strictMode ex conf db version source hp]
    refine ⟨rfl, rfl, fun _ h => h, ?_⟩
    rcases isPending_or_isApplied_or_error db version with h | h | h
    · rw [hp] at h; simp at h
    · exact Or.inl h
    · exact Or.inr (Or.inl h)
  | true =>
    have hstep := runPendingMigration_of_pending strictMode ex conf db version source hp
    cases hd1 : (dispatch ex conf db version source).1 with
    | some err =>
      rw [hd1] at hstep
      rw [hstep] at hclean
      cases strictMode <;> simp [Event.isFailure] at hclean
    | none =>
      rw [hd1] at hstep
      rw [hstep]
      by_cases hgo : Ext source = ".go"
      · have hd : dispatch ex conf db version source =
            ((ex.RunGoMigration conf source version true db).1,
              (ex.RunGoMigration conf source version true db).2,
              [Event.runGo source version]) := by
          simp [dispatch, hgo]
        rw [hd] at hd1 ⊢
        obtain ⟨t, hlt, hdb⟩ := (hex conf source version db).1.1 hd1
        rw [hdb]
        have happ := isApplied_append db version t hlt
        refine ⟨rfl, rfl, happ.2, ?_⟩
        by_cases hE : db.readError = none
        · exact Or.inl (happ.1 hE)
        · exact Or.inr (Or.inl hE)
      · by_cases hsql : Ext source = ".sql"
        · have hd : dispatch ex conf db version source =
              ((ex.RunSQLMigration conf db source version true).1,
                (ex.RunSQLMigration conf db source version true).2,
                [Event.runSQL source version]) := by
            simp [dispatch, hgo, hsql]
          rw [hd] at hd1 ⊢
          obtain ⟨t, hlt, hdb⟩ := (hex conf source version db).2.1 hd1
          rw [hdb]
          have happ := isApplied_append db version t hlt
          refine ⟨rfl, rfl, happ.2, ?_⟩
          by_cases hE : db.readError = none
          · exact Or.inl (happ.1 hE)
          · exact Or.inr (Or.inl hE)
        · have hd : dispatch ex conf db version source = (none, db, []) := by
            simp [dispatch, hgo, hsql]
          rw [hd]
          refine ⟨rfl, rfl, fun _ h => h, Or.inr (Or.inr ?_)⟩
          simp [knownKind, hgo, hsql]

/-- A run of the loop that reports no failure, with executors that record their
successes: afterwards every descriptor of the list is applied, unless reads fail or its
kind is unknown. -/
theorem runLoop_clean (strictMode : Bool) (ex : Executors) (conf : DBConf)
    (hex : RecordsSuccess ex) (ms : List Migration) :
    ∀ db : DB, (runLoop strictMode ex conf db ms).events.any Event.isFailure = false →
      (runLoop strictMode ex conf db ms).fatal = false ∧
        (runLoop strictMode ex conf db ms).db.readError = db.readError ∧
        (∀ v : Int, isApplied db v = true →
          isApplied (runLoop strictMode ex conf db ms).db v = true) ∧
        ∀ m ∈ ms, isApplied (runLoop strictMode ex conf db ms).db m.Version = true ∨
          (runLoop strictMode ex conf db ms).db.readError ≠ none ∨
          knownKind m.Source = false := by
  induction ms with
  | nil =>
    intro db _
    exact ⟨rfl, rfl, fun _ h => h, fun m hm => by simp at hm⟩
  | cons m ms ih =>
    intro db hclean
    rw [runLoop_cons] at hclean ⊢
    by_cases hs : (runPendingMigration strictMode ex conf db m.Version m.Source).fatal = true
    · rw [if_pos hs] at hclean
      have h := (runPendingMigration_clean strictMode ex conf db m.Version m.Source hex hclean).1
      rw [hs] at h
      simp at h
    · rw [if_neg hs] at hclean ⊢
      simp only [List.any_append, Bool.or_eq_false_iff] at hclean
      obtain ⟨_, hread, hkeep, hself⟩ :=
        runPendingMigration_clean strictMode ex conf db m.Version m.Source hex hclean.1
      obtain ⟨hf, hread2, hkeep2, hall⟩ :=
        ih (runPendingMigration strictMode ex conf db m.Version m.Source).db hclean.2
      refine ⟨hf, hread2.trans hread, fun v h => hkeep2 v (hkeep v h), ?_⟩
      intro x hx
      rcases List.mem_cons.mp hx with hxm | hxms
      · subst hxm
        rcases hself with h | h | h
        · exact Or.inl (hkeep2 _ h)
        · exact Or.inr (Or.inl (by simp only; rw [hread2, hread]; exact h))
        · exact Or.inr (Or.inr h)
      · exact hall x hxms

/-- A run of the loop over descriptors that are all applied (or unreadable, or of unknown
kind): no executor is called, nothing changes, and descriptors of a known kind are only
queried. -/
theorem runLoop_settled (strictMode : Bool) (ex : Executors) (conf : DBConf) (db : DB)
    (ms : List Migration)
    (h : ∀ m ∈ ms, isApplied db m.Version = true ∨ db.readError ≠ none ∨
      knownKind m.Source = false) :
    (runLoop strictMode ex conf db ms).db = db ∧
      (runLoop strictMode ex conf db ms).fatal = false ∧
      executorCalls (runLoop strictMode ex conf db ms).events = [] ∧
      ((∀ m ∈ ms, knownKind m.Source = true) →
        (runLoop strictMode ex conf db ms).events =
          ms.map (fun m => Event.query m.Version)) := by
  induction ms with
  | nil => exact ⟨rfl, rfl, rfl, fun _ => rfl⟩
  | cons m ms ih =>
    have ih2 := ih (fun x hx => h x (List.mem_cons_of_mem m hx))
    have hm := h m (List.mem_cons_self m ms)
    have hstep : runPendingMigration strictMode ex conf db m.Version m.Source =
          { db := db, events := [Event.query m.Version], fatal := false } ∨
        (knownKind m.Source = false ∧
          runPendingMigration strictMode ex conf db m.Version m.Source =
            { db := db,
              events := [Event.query m.Version, Event.println "OK   " (Base m.Source)],
              fatal := false }) := by
      cases hp : isPending db m.Version with
      | false =>
        exact Or.inl (runPendingMigration_of_not_pending strictMode ex conf db _ _ hp)
      | true =>
        rcases hm with h1 | h1 | h1
        · rw [isPending_false_of_isApplied db m.Version h1] at hp
          simp at hp
        · cases hE : db.readError with
          | none => exact absurd hE h1
          | some e =>
            rw [isPending_false_of_readError db m.Version e hE] at hp
            simp at hp
        · exact Or.inr ⟨h1, runPendingMigration_of_unknown_kind strictMode ex conf db _ _ hp h1⟩
    rw [runLoop_cons]
    rcases hstep with hs | ⟨hk, hs⟩
    · rw [hs]
      simp only [Bool.false_eq_true, if_false]
      refine ⟨ih2.1, ih2.2.1, ?_, ?_⟩
      · have h3 := ih2.2.2.1
        unfold executorCalls at h3 ⊢
        simp [List.filter_cons, Event.isExecutorCall, h3]
      · intro hall
        rw [ih2.2.2.2 (fun x hx => hall x (List.mem_cons_of_mem m hx))]
        rfl
    · rw [hs]
      simp only [Bool.false_eq_true, if_false]
      refine ⟨ih2.1, ih2.2.1, ?_, ?_⟩
      · have h3 := ih2.2.2.1
        unfold executorCalls at h3 ⊢
        simp [List.filter_cons, Event.isExecutorCall, h3]
      · intro hall
        have := hall m (List.mem_cons_self m ms)
        rw [hk] at this
        simp at this

theorem nextStamp_gt (rows : List LedgerRow) : ∀ r ∈ rows, r.tstamp < nextStamp rows := by
  induction rows with
  | nil => intro r hr; simp at hr
  | cons a rest ih =>
    intro r hr
    have hfold : nextStamp (a :: rest) = max (a.tstamp + 1) (nextStamp rest) := rfl
    rw [hfold]
    rcases List.mem_cons.mp hr with h | h
    · subst h
      exact lt_of_lt_of_le (by omega) (le_max_left _ _)
    · exact lt_of_lt_of_le (ih r h) (le_max_right _ _)

/-- The concrete executors record their successes and nothing else. -/
theorem demoExecutors_recordsSuccess (failing : List Int) :
    RecordsSuccess (demoExecutors failing) := by
  intro conf source version db
  have h : Recorded version db (demoRun failing version db) := by
    unfold Recorded demoRun
    by_cases hv : version ∈ failing
    · simp [hv]
    · simp only [hv, if_false]
      exact ⟨fun _ => ⟨nextStamp db.goose_db_version,
        fun r hr _ => nextStamp_gt db.goose_db_version r hr, rfl⟩, fun h => absurd rfl h⟩
  exact ⟨h, h⟩

/-- The database after a call for a pending version is the one the `switch` left. -/
theorem runPendingMigration_db_of_pending (strictMode : Bool) (ex : Executors) (conf : DBConf)
    (db : DB) (version : Int) (source : String) (hp : isPending db version = true) :
    (runPendingMigration strictMode ex conf db version source).db =
      (dispatch ex conf db version source).2.1 := by
  rw [runPendingMigration_of_pending strictMode ex conf db version source hp]
  cases (dispatch ex conf db version source).1 <;> cases strictMode <;> rfl

/-- With executors that record their successes and nothing else, the `switch` either
succeeded for a known kind and appended the applied row, or left the database as it was. -/
theorem dispatch_recorded (ex : Executors) (conf : DBConf) (db : DB) (version : Int)
    (source : String) (hex : RecordsSuccess ex) :
    ((dispatch ex conf db version source).1 = none ∧ knownKind source = true ∧
        ∃ t : Int, (∀ row ∈ db.goose_db_version, row.version_id = version → row.tstamp < t) ∧
          (dispatch ex conf db version source).2.1 =
            { db with goose_db_version := db.goose_db_version ++
              [{ version_id := version, tstamp := t, is_applied := true }] }) ∨
      (((dispatch ex conf db version source).1 ≠ none ∨ knownKind source = false) ∧
        (dispatch ex conf db version source).2.1 = db) := by
  by_cases hgo : Ext source = ".go"
  · have hd : dispatch ex conf db version source =
        ((ex.RunGoMigration conf source version true db).1,
          (ex.RunGoMigration conf source version true db).2,
          [Event.runGo source version]) := by
      simp [dispatch, hgo]
    rw [hd]
    have hk : knownKind source = true := by simp [knownKind, hgo]
    by_cases h1 : (ex.RunGoMigration conf source version true db).1 = none
    · obtain ⟨t, hlt, hdb⟩ := (hex conf source version db).1.1 h1
      exact Or.inl ⟨h1, hk, t, hlt, hdb⟩
    · exact Or.inr ⟨Or.inl h1, (hex conf source version db).1.2 h1⟩
  · by_cases hsql : Ext source = ".sql"
    · have hd : dispatch ex conf db version source =
          ((ex.RunSQLMigration conf db source version true).1,
            (ex.RunSQLMigration conf db source version true).2,
            [Event.runSQL source version]) := by
        simp [dispatch, hgo, hsql]
      rw [hd]
      have hk : knownKind source = true := by simp [knownKind, hsql]
      by_cases h1 : (ex.RunSQLMigration conf db source version true).1 = none
      · obtain ⟨t, hlt, hdb⟩ := (hex conf source version db).2.1 h1
        exact Or.inl ⟨h1, hk, t, hlt, hdb⟩
      · exact Or.inr ⟨Or.inl h1, (hex conf source version db).2.2 h1⟩
    · have hd : dispatch ex conf db version source = (none, db, []) := by
        simp [dispatch, hgo, hsql]
      rw [hd]
      exact Or.inr ⟨Or.inr (by simp [knownKind, hgo, hsql]), rfl⟩

/-- With executors that record their successes and nothing else, a call of
`runPendingMigration` keeps the readability of the database, keeps applied versions
applied, and keeps the most recent row of every other version. -/
theorem runPendingMigration_keeps (strictMode : Bool) (ex : Executors) (conf : DBConf)
    (db : DB) (version : Int) (source : String) (hex : RecordsSuccess ex) :
    (runPendingMigration strictMode ex conf db version source).db.readError = db.readError ∧
      (∀ v : Int, isApplied db v = true →
        isApplied (runPendingMigration strictMode ex conf db version source).db v = true) ∧
      (∀ v : Int, v ≠ version →
        selectLatest (runPendingMigration strictMode ex conf db version source).db.goose_db_version v =
          selectLatest db.goose_db_version v) := by
  cases hp : isPending db version with
  | false =>
    rw [runPendingMigration_of_not_pending strictMode ex conf db version source hp]
    exact ⟨rfl, fun _ h => h, fun _ _ => rfl⟩
  | true =>
    rw [runPendingMigration_db_of_pending strictMode ex conf db version source hp]
    rcases dispatch_recorded ex conf db version source hex with ⟨_, _, t, hlt, hdb⟩ | ⟨_, hdb⟩
    · rw [hdb]
      exact ⟨rfl, (isApplied_append db version t hlt).2,
        fun v hv => selectLatest_append_other _ version v t true (Ne.symm hv)⟩
    · rw [hdb]
      exact ⟨rfl, fun _ h => h, fun _ _ => rfl⟩

/-- The same for a run of the loop, aborted or not; the most recent row is kept for the
versions that are not in the list. -/
theorem runLoop_keeps (strictMode : Bool) (ex : Executors) (conf : DBConf)
    (hex : RecordsSuccess ex) (ms : List Migration) :
    ∀ db : DB,
      (runLoop strictMode ex conf db ms).db.readError = db.readError ∧
        (∀ v : Int, isApplied db v = true →
          isApplied (runLoop strictMode ex conf db ms).db v = true) ∧
        (∀ v : Int, v ∉ ms.map Migration.Version →
          selectLatest (runLoop strictMode ex conf db ms).db.goose_db_version v =
            selectLatest db.goose_db_version v) := by
  induction ms with
  | nil =>
    intro db
    exact ⟨rfl, fun _ h => h, fun _ _ => rfl⟩
  | cons m ms ih =>
    intro db
    obtain ⟨hread, hkeep, hother⟩ :=
      runPendingMigration_keeps strictMode ex conf db m.Version m.Source hex
    rw [runLoop_cons]
    by_cases hs : (runPendingMigration strictMode ex conf db m.Version m.Source).fatal = true
    · rw [if_pos hs]
      refine ⟨hread, hkeep, fun v hv => hother v ?_⟩
      intro hvm
      exact hv (by simp [hvm])
    · rw [if_neg hs]
      obtain ⟨hread2, hkeep2, hother2⟩ :=
        ih (runPendingMigration strictMode ex conf db m.Version m.Source).db
      refine ⟨hread2.trans hread, fun v h => hkeep2 v (hkeep v h), fun v hv => ?_⟩
      have hvm : v ≠ m.Version := by
        intro hvm
        exact hv (by simp [hvm])
      have hvms : v ∉ ms.map Migration.Version := by
        intro hmem
        exact hv (by simp only [List.map_cons]; exact List.mem_cons_of_mem _ hmem)
      exact (hother2 v hvms).trans (hother v hvm)

/-- With `-strict`, a call that did not end the process reported no failure. -/
theorem runPendingMigration_strict_clean (ex : Executors) (conf : DBConf) (db : DB)
    (version : Int) (source : String)
    (h : (runPendingMigration true ex conf db version source).fatal = false) :
    (runPendingMigration true ex conf db version source).events.any Event.isFailure = false := by
  cases hp : isPending db version with
  | false =>
    rw [runPendingMigration_of_not_pending true ex conf db version source hp]
    rfl
  | true =>
    have hstep := runPendingMigration_of_pending true ex conf db version source hp
    cases hd1 : (dispatch ex conf db version source).1 with
    | some err =>
      rw [hd1] at hstep
      rw [hstep] at h
      simp at h
    | none =>
      rw [hd1] at hstep
      rw [hstep, dispatch_events]
      by_cases hgo : Ext source = ".go" <;> by_cases hsql : Ext source = ".sql" <;>
        simp [hgo, hsql, Event.isFailure]

/-- With `-strict`, a run that was not aborted reported no failure. -/
theorem runLoop_strict_clean (ex : Executors) (conf : DBConf) (ms : List Migration) :
    ∀ db : DB, (runLoop true ex conf db ms).fatal = false →
      (runLoop true ex conf db ms).events.any Event.isFailure = false := by
  induction ms with
  | nil => intro db _; rfl
  | cons m ms ih =>
    intro db h
    rw [runLoop_cons] at h ⊢
    by_cases hs : (runPendingMigration true ex conf db m.Version m.Source).fatal = true
    · rw [if_pos hs] at h
      rw [hs] at h
      simp at h
    · rw [if_neg hs] at h ⊢
      simp only [List.any_append, Bool.or_eq_false_iff]
      exact ⟨runPendingMigration_strict_clean ex conf db m.Version m.Source (by simpa using hs),
        ih _ h⟩

theorem isPending_congr (db db2 : DB) (v : Int) (hread : db2.readError = db.readError)
    (hsel : selectLatest db2.goose_db_version v = selectLatest db.goose_db_version v) :
    isPending db2 v = isPending db v := by
  unfold isPending
  rw [hread, hsel]

theorem readError_of_isPending (db : DB) (v : Int) (h : isPending db v = true) :
    db.readError = none := by
  cases hE : db.readError with
  | none => rfl
  | some e => simp [isPending, hE] at h

/-- A failing `switch` is one of the two executor calls. -/
theorem knownKind_of_dispatch_error (ex : Executors) (conf : DBConf) (db : DB) (version : Int)
    (source : String) (err : GoError) (h : (dispatch ex conf db version source).1 = some err) :
    knownKind source = true := by
  unfold dispatch at h
  by_cases hgo : Ext source = ".go"
  · simp [knownKind, hgo]
  · by_cases hsql : Ext source = ".sql"
    · simp [knownKind, hsql]
    · simp [hgo, hsql] at h

/-- The database at the end of a run over `pre ++ rest`, when the run over `pre` was not
aborted. -/
theorem runLoop_append_db (strictMode : Bool) (ex : Executors) (conf : DBConf) (db : DB)
    (pre rest : List Migration) (h : (runLoop strictMode ex conf db pre).fatal = false) :
    (runLoop strictMode ex conf db (pre ++ rest)).db =
      (runLoop strictMode ex conf (runLoop strictMode ex conf db pre).db rest).db := by
  rw [runLoop_append, h]
  rfl

/-- A descriptor that the first run found applied, or whose executor succeeded in the
first run, is applied when the first run ends. -/
theorem isApplied_after_first_run (strictMode : Bool) (ex : Executors) (conf : DBConf)
    (d1 : DB) (m : Migration) (post : List Migration) (hex : RecordsSuccess ex)
    (hA : isApplied d1 m.Version = true ∨
      (isPending d1 m.Version = true ∧ knownKind m.Source = true ∧
        (dispatch ex conf d1 m.Version m.Source).1 = none)) :
    isApplied (runLoop strictMode ex conf d1 (m :: post)).db m.Version = true := by
  rcases hA with h | ⟨hp, hk, hnone⟩
  · exact (runLoop_keeps strictMode ex conf hex (m :: post) d1).2.1 _ h
  · have hsdb := runPendingMigration_db_of_pending strictMode ex conf d1 m.Version m.Source hp
    have hsf : (runPendingMigration strictMode ex conf d1 m.Version m.Source).fatal = false := by
      rw [runPendingMigration_of_pending strictMode ex conf d1 m.Version m.Source hp, hnone]
    rcases dispatch_recorded ex conf d1 m.Version m.Source hex with ⟨_, _, t, hlt, hdb⟩ | ⟨hbad, _⟩
    · have happS : isApplied (runPendingMigration strictMode ex conf d1 m.Version m.Source).db
          m.Version = true := by
        rw [hsdb, hdb]
        exact (isApplied_append d1 m.Version t hlt).1 (readError_of_isPending d1 _ hp)
      rw [runLoop_cons, hsf]
      exact (runLoop_keeps strictMode ex conf hex post _).2.1 _ happS
    · rcases hbad with h | h
      · exact absurd hnone h
      · rw [hk] at h
        simp at h

/-- A descriptor whose executor failed stays pending to the end of the run, when no later
descriptor has its version. -/
theorem isPending_after_failure (strictMode : Bool) (ex : Executors) (conf : DBConf)
    (d1 : DB) (m : Migration) (post : List Migration) (err : GoError) (hex : RecordsSuccess ex)
    (hnot : m.Version ∉ post.map Migration.Version)
    (hp : isPending d1 m.Version = true)
    (hfail : (dispatch ex conf d1 m.Version m.Source).1 = some err) :
    isPending (runLoop strictMode ex conf d1 (m :: post)).db m.Version = true := by
  have hsdb : (runPendingMigration strictMode ex conf d1 m.Version m.Source).db = d1 := by
    rw [runPendingMigration_db_of_pending strictMode ex conf d1 m.Version m.Source hp]
    rcases dispatch_recorded ex conf d1 m.Version m.Source hex with ⟨hnone, _⟩ | ⟨_, hdb⟩
    · rw [hfail] at hnone
      simp at hnone
    · exact hdb
  rw [runLoop_cons]
  by_cases hs : (runPendingMigration strictMode ex conf d1 m.Version m.Source).fatal = true
  · rw [if_pos hs, hsdb]
    exact hp
  · rw [if_neg hs, hsdb]
    obtain ⟨hread, _, hother⟩ := runLoop_keeps strictMode ex conf hex post d1
    rw [isPending_congr d1 _ m.Version hread (hother _ hnot)]
    exact hp

/-! ## The claims -/

/-- C1: when the ledger query for a version succeeds (returns `nil`) and the row it
scanned, the most recent of the version, has `IsApplied = true`, `runPendingMigration`
only queries the ledger: it calls neither executor, prints no `OK` or `FAIL` record,
leaves the database as it is and returns. Hence in a run of the loop, at a descriptor
whose version is applied when it is queried, the trace of the run has the query and
nothing else. -/
theorem skip_when_applied (strictMode : Bool) (ex : Executors) (conf : DBConf) (db : DB)
    (version : Int) (source : String)
    (hq : (QueryRowScan db version { TStamp := 0, IsApplied := false }).1 = ScanError.nil)
    (happ : (QueryRowScan db version { TStamp := 0, IsApplied := false }).2.IsApplied = true) :
    runPendingMigration strictMode ex conf db version source =
        { db := db, events := [Event.query version], fatal := false } ∧
      executorCalls (runPendingMigration strictMode ex conf db version source).events = [] ∧
      ∀ (db0 : DB) (pre post : List Migration),
        (runLoop strictMode ex conf db0 pre).fatal = false →
        (runLoop strictMode ex conf db0 pre).db = db →
        runLoop strictMode ex conf db0 (pre ++ { Version := version, Source := source } :: post) =
          { db := (runLoop strictMode ex conf db post).db,
            events := (runLoop strictMode ex conf db0 pre).events ++
              Event.query version :: (runLoop strictMode ex conf db post).events,
            fatal := (runLoop strictMode ex conf db post).fatal } := by
  have hstep := runPendingMigration_of_not_pending strictMode ex conf db version source
    (isPending_false_of_isApplied db version (isApplied_of_scan db version hq happ))
  refine ⟨hstep, by rw [hstep]; rfl, ?_⟩
  intro db0 pre post hpre hdb
  rw [runLoop_append, hpre, runLoop_cons, hdb]
  simp [hstep]

/-- C1 at the input of the claim: version 7 with the ledger entry `{version: 7,
isApplied: true}`. -/
theorem skip_when_applied_witness :
    QueryRowScan { goose_db_version := [{ version_id := 7, tstamp := 10, is_applied := true }],
                   readError := none } 7 { TStamp := 0, IsApplied := false } =
        (ScanError.nil, { TStamp := 10, IsApplied := true }) ∧
      runPendingMigration true (demoExecutors []) demoConf
          { goose_db_version := [{ version_id := 7, tstamp := 10, is_applied := true }],
            readError := none } 7 "db/migrations/007_seven.sql" =
        { db := { goose_db_version := [{ version_id := 7, tstamp := 10, is_applied := true }],
                  readError := none },
          events := [Event.query 7], fatal := false } :=
  ⟨by decide,
    (skip_when_applied true (demoExecutors []) demoConf
      { goose_db_version := [{ version_id := 7, tstamp := 10, is_applied := true }],
        readError := none } 7 "db/migrations/007_seven.sql" (by decide) (by decide)).1⟩

/-- C2, as the code has it: when the ledger query fails with an error other than
`sql.ErrNoRows`, `runPendingMigration` returns at once: no executor is called, no
record is printed and the database is left as it is. -/
theorem skip_when_ledger_unavailable (strictMode : Bool) (ex : Executors) (conf : DBConf)
    (db : DB) (version : Int) (source : String) (e : GoError)
    (h : db.readError = some e) :
    (QueryRowScan db version { TStamp := 0, IsApplied := false }).1 = ScanError.other e ∧
      runPendingMigration strictMode ex conf db version source =
        { db := db, events := [Event.query version], fatal := false } := by
  refine ⟨by simp [QueryRowScan, h], ?_⟩
  exact runPendingMigration_of_not_pending strictMode ex conf db version source
    (isPending_false_of_readError db version e h)

/-- C2, as the code has it, at a concrete input: migration 1 on a database whose reads
fail. -/
theorem skip_when_ledger_unavailable_witness :
    downDB.readError = some "connection refused" ∧
      runPendingMigration false (demoExecutors []) demoConf downDB m1.Version m1.Source =
        { db := downDB, events := [Event.query m1.Version], fatal := false } :=
  ⟨rfl,
    (skip_when_ledger_unavailable false (demoExecutors []) demoConf downDB m1.Version m1.Source
      "connection refused" rfl).2⟩

/-- C2 fails as stated: for the SQL migration 1 and a database whose reads fail with
"connection refused", the call makes the query and no executor call. -/
theorem ledger_unavailable_not_dispatched :
    (QueryRowScan downDB m1.Version { TStamp := 0, IsApplied := false }).1 =
        ScanError.other "connection refused" ∧
      Ext m1.Source = ".sql" ∧
      (runPendingMigration false (demoExecutors []) demoConf downDB m1.Version m1.Source).events =
        [Event.query 1] ∧
      Event.runSQL m1.Source m1.Version ∉
        (runPendingMigration false (demoExecutors []) demoConf downDB m1.Version m1.Source).events := by
  decide

/-- C3: with `-strict`, when the loop reaches (without an earlier abort) a pending
migration whose executor returns an error, the process ends there through `log.Fatalf`:
the trace of the run is the trace up to that migration, its query, its one executor call
and the fatal message, whatever descriptors follow (none of them is queried or run); the
database is the one the failing executor left, so nothing done earlier is undone. -/
theorem strict_abort (ex : Executors) (conf : DBConf) (db0 : DB) (pre post : List Migration)
    (m : Migration) (err : GoError)
    (hpre : (runLoop true ex conf db0 pre).fatal = false)
    (hpend : isPending (runLoop true ex conf db0 pre).db m.Version = true)
    (hfail : (dispatch ex conf (runLoop true ex conf db0 pre).db m.Version m.Source).1 = some err) :
    runLoop true ex conf db0 (pre ++ m :: post) =
        { db := (dispatch ex conf (runLoop true ex conf db0 pre).db m.Version m.Source).2.1,
          events := (runLoop true ex conf db0 pre).events ++
            (Event.query m.Version ::
              (dispatch ex conf (runLoop true ex conf db0 pre).db m.Version m.Source).2.2 ++
              [Event.fatalf err]),
          fatal := true } ∧
      ((dispatch ex conf (runLoop true ex conf db0 pre).db m.Version m.Source).2.2 =
          [Event.runGo m.Source m.Version] ∨
        (dispatch ex conf (runLoop true ex conf db0 pre).db m.Version m.Source).2.2 =
          [Event.runSQL m.Source m.Version]) := by
  constructor
  · rw [runLoop_append, hpre, runLoop_cons,
      runPendingMigration_of_pending true ex conf _ m.Version m.Source hpend, hfail]
    simp
  · unfold dispatch at hfail ⊢
    by_cases hgo : Ext m.Source = ".go"
    · simp [hgo]
    · by_cases hsql : Ext m.Source = ".sql"
      · simp [hgo, hsql]
      · simp [hgo, hsql] at hfail

/-- C3 at the input of the claim: migration 1 succeeds, migration 2 fails, migration 3
would succeed; with `-strict` the run applies 1, fails at 2 and never queries 3. -/
theorem strict_abort_witness :
    (runLoop true (demoExecutors [2]) demoConf emptyDB [m1]).fatal = false ∧
      isPending (runLoop true (demoExecutors [2]) demoConf emptyDB [m1]).db m2.Version = true ∧
      (dispatch (demoExecutors [2]) demoConf
        (runLoop true (demoExecutors [2]) demoConf emptyDB [m1]).db m2.Version m2.Source).1 =
        some "migration failed" ∧
      runLoop true (demoExecutors [2]) demoConf emptyDB [m1, m2, m3] =
        { db := { goose_db_version := [{ version_id := 1, tstamp := 0, is_applied := true }],
                  readError := none },
          events := [Event.query 1, Event.runSQL "db/migrations/001_users.sql" 1,
            Event.println "OK   " "001_users.sql",
            Event.query 2, Event.runGo "db/migrations/002_orders.go" 2,
            Event.fatalf "migration failed"],
          fatal := true } :=
  ⟨by decide, by decide, by decide,
    (strict_abort (demoExecutors [2]) demoConf emptyDB [m1] [m3] m2 "migration failed"
      (by decide) (by decide) (by decide)).1.trans (by decide)⟩

/-- C4: without `-strict` the loop always runs to its end (status Completed): the trace of
a run over `pre ++ m :: post` is the trace over `pre`, the trace of the one call for `m`,
and the trace over `post` from the database that call left. If `m` is pending and its
executor returns an error, the call for `m` is the query, the one executor call and the
record `FAIL` with the base name of the source; a pending `m` of a known kind gets
exactly one executor call, and no call for `m` makes more than one. Every descriptor of
the list is passed to `runPendingMigration` exactly once, in the order of the list. -/
theorem lenient_continues (ex : Executors) (conf : DBConf) (db0 : DB)
    (pre post : List Migration) (m : Migration) :
    runLoop false ex conf db0 (pre ++ m :: post) =
        { db := (runLoop false ex conf
            (runPendingMigration false ex conf (runLoop false ex conf db0 pre).db
              m.Version m.Source).db post).db,
          events := (runLoop false ex conf db0 pre).events ++
            ((runPendingMigration false ex conf (runLoop false ex conf db0 pre).db
              m.Version m.Source).events ++
            (runLoop false ex conf
              (runPendingMigration false ex conf (runLoop false ex conf db0 pre).db
                m.Version m.Source).db post).events),
          fatal := false } ∧
      (∀ err : GoError, isPending (runLoop false ex conf db0 pre).db m.Version = true →
        (dispatch ex conf (runLoop false ex conf db0 pre).db m.Version m.Source).1 = some err →
        runPendingMigration false ex conf (runLoop false ex conf db0 pre).db m.Version m.Source =
          { db := (dispatch ex conf (runLoop false ex conf db0 pre).db m.Version m.Source).2.1,
            events := Event.query m.Version ::
              (dispatch ex conf (runLoop false ex conf db0 pre).db m.Version m.Source).2.2 ++
              [Event.println "FAIL " (Base m.Source)],
            fatal := false }) ∧
      (isPending (runLoop false ex conf db0 pre).db m.Version = true →
        knownKind m.Source = true →
        executorCalls (runPendingMigration false ex conf (runLoop false ex conf db0 pre).db
            m.Version m.Source).events =
          [if Ext m.Source = ".go" then Event.runGo m.Source m.Version
            else Event.runSQL m.Source m.Version]) ∧
      (executorCalls (runPendingMigration false ex conf (runLoop false ex conf db0 pre).db
        m.Version m.Source).events).length ≤ 1 ∧
      queriedVersions (runLoop false ex conf db0 (pre ++ m :: post)).events =
        (pre ++ m :: post).map Migration.Version := by
  refine ⟨?_, ?_, ?_, ?_,
    (queriedVersions_runLoop false ex conf db0 _).2 (runLoop_lenient_fatal ex conf db0 _)⟩
  · rw [runLoop_append, runLoop_lenient_fatal, runLoop_cons, runPendingMigration_lenient_fatal]
    simp [runLoop_lenient_fatal]
  · intro err hp hfail
    rw [runPendingMigration_of_pending false ex conf _ m.Version m.Source hp, hfail]
    simp
  · intro hp hk
    simp only [knownKind, Bool.or_eq_true, decide_eq_true_eq] at hk
    by_cases hgo : Ext m.Source = ".go"
    · rw [(executorCalls_of_pending false ex conf _ m.Version m.Source hp).2 hgo |>.1]
      simp [hgo]
    · have hsql : Ext m.Source = ".sql" := hk.resolve_left hgo
      rw [(executorCalls_of_pending false ex conf _ m.Version m.Source hp).1 hsql |>.1]
      simp [hgo]
  · cases hp : isPending (runLoop false ex conf db0 pre).db m.Version with
    | false =>
      rw [runPendingMigration_of_not_pending false ex conf _ m.Version m.Source hp]
      simp [executorCalls, Event.isExecutorCall]
    | true =>
      rw [runPendingMigration_of_pending false ex conf _ m.Version m.Source hp, dispatch_events]
      cases (dispatch ex conf (runLoop false ex conf db0 pre).db m.Version m.Source).1 <;>
        by_cases hgo : Ext m.Source = ".go" <;> by_cases hsql : Ext m.Source = ".sql" <;>
        simp [executorCalls, Event.isExecutorCall, hgo, hsql]

/-- C4 at the input of the claim: migration 1 succeeds, migration 2 fails, migration 3
succeeds; without `-strict` the run applies 1, records the failure of 2, applies 3. -/
theorem lenient_continues_witness :
    runLoop false (demoExecutors [2]) demoConf emptyDB [m1, m2, m3] =
      { db := { goose_db_version := [{ version_id := 1, tstamp := 0, is_applied := true },
                  { version_id := 3, tstamp := 1, is_applied := true }],
                readError := none },
        events := [Event.query 1, Event.runSQL "db/migrations/001_users.sql" 1,
          Event.println "OK   " "001_users.sql",
          Event.query 2, Event.runGo "db/migrations/002_orders.go" 2,
          Event.println "FAIL " "002_orders.go",
          Event.query 3, Event.runSQL "db/migrations/003_index.sql" 3,
          Event.println "OK   " "003_index.sql"],
        fatal := false } :=
  (lenient_continues (demoExecutors [2]) demoConf emptyDB [m1] [m3] m2).1.trans (by decide)

/-- C5, as the code has it: for descriptors with unique versions, in any input order, the
versions passed to `runPendingMigration` by the loop of `main` are an initial part of the
input versions sorted in strictly ascending order; they are all of them when the run is
not aborted, which is always so without `-strict`. So the versions are queried (and,
where pending, attempted) in strictly ascending order. -/
theorem ascending_order (strictMode : Bool) (ex : Executors) (conf : DBConf) (db : DB)
    (migrations : List Migration) (hnodup : (migrations.map Migration.Version).Nodup) :
    queriedVersions (mainLoop strictMode ex conf db migrations).events <+:
        (SortMigrations migrations).map Migration.Version ∧
      ((SortMigrations migrations).map Migration.Version).Sorted (fun a b => a < b) ∧
      ((SortMigrations migrations).map Migration.Version).Perm
        (migrations.map Migration.Version) ∧
      (queriedVersions (mainLoop strictMode ex conf db migrations).events).Sorted
        (fun a b => a < b) ∧
      ((mainLoop strictMode ex conf db migrations).fatal = false →
        queriedVersions (mainLoop strictMode ex conf db migrations).events =
          (SortMigrations migrations).map Migration.Version) ∧
      (strictMode = false →
        queriedVersions (mainLoop strictMode ex conf db migrations).events =
          (SortMigrations migrations).map Migration.Version) := by
  have hq := queriedVersions_runLoop strictMode ex conf db (SortMigrations migrations)
  have hs := SortMigrations_sorted migrations hnodup
  refine ⟨hq.1, hs, SortMigrations_perm migrations, hs.sublist hq.1.sublist, hq.2, ?_⟩
  intro hlenient
  subst hlenient
  exact hq.2 (runLoop_lenient_fatal ex conf db _)

/-- C5, as the code has it, at the input of the claim: versions 5, 3, 9, 1 are queried
in the order 1, 3, 5, 9 when the run is not aborted. -/
theorem ascending_order_witness :
    ([m5, m3, m9, m1].map Migration.Version).Nodup ∧
      queriedVersions (mainLoop false (demoExecutors [3]) demoConf emptyDB
        [m5, m3, m9, m1]).events = [1, 3, 5, 9] :=
  ⟨by decide,
    ((ascending_order false (demoExecutors [3]) demoConf emptyDB [m5, m3, m9, m1]
      (by decide)).2.2.2.2.2 rfl).trans (by decide)⟩

/-- C5 fails as stated: with `-strict`, versions 5, 3, 9, 1 (unique) and an executor that
fails for version 3, the versions passed to `runPendingMigration` are 1, 3 and not the
sorted input versions 1, 3, 5, 9. -/
theorem ascending_order_cut_by_abort :
    ([m5, m3, m9, m1].map Migration.Version).Nodup ∧
      (SortMigrations [m5, m3, m9, m1]).map Migration.Version = [1, 3, 5, 9] ∧
      queriedVersions (mainLoop true (demoExecutors [3]) demoConf emptyDB
        [m5, m3, m9, m1]).events = [1, 3] ∧
      queriedVersions (mainLoop true (demoExecutors [3]) demoConf emptyDB
          [m5, m3, m9, m1]).events ≠
        (SortMigrations [m5, m3, m9, m1]).map Migration.Version := by
  decide

/-- C6: on a readable database the ledger query of `runPendingMigration` returns
`sql.ErrNoRows` exactly when no row of the ledger has the version; otherwise it returns
`nil` and scans into `row` the `tstamp` and `is_applied` of a row of the ledger that has
the version and whose `tstamp` is greatest among the rows of the version. Whether an
executor is called depends on the ledger only through the scanned `IsApplied`, and
the query is a function of the ledger, so repeating it on an unchanged ledger returns
the same. -/
theorem ledger_query_most_recent (db : DB) (version : Int) (hread : db.readError = none) :
    ((QueryRowScan db version { TStamp := 0, IsApplied := false }).1 = ScanError.ErrNoRows ↔
        ∀ r ∈ db.goose_db_version, r.version_id ≠ version) ∧
      ((QueryRowScan db version { TStamp := 0, IsApplied := false }).1 = ScanError.ErrNoRows ∨
        ((QueryRowScan db version { TStamp := 0, IsApplied := false }).1 = ScanError.nil ∧
          ∃ r ∈ db.goose_db_version, r.version_id = version ∧
            (∀ r2 ∈ db.goose_db_version, r2.version_id = version → r2.tstamp ≤ r.tstamp) ∧
            (QueryRowScan db version { TStamp := 0, IsApplied := false }).2 =
              { TStamp := r.tstamp, IsApplied := r.is_applied })) ∧
      (∀ (strictMode : Bool) (ex : Executors) (conf : DBConf) (source : String),
        executorCalls (runPendingMigration strictMode ex conf db version source).events = [] ↔
          ((QueryRowScan db version { TStamp := 0, IsApplied := false }).2.IsApplied = true ∨
            knownKind source = false)) ∧
      (∀ db2 : DB, db2.goose_db_version = db.goose_db_version → db2.readError = none →
        QueryRowScan db2 version { TStamp := 0, IsApplied := false } =
          QueryRowScan db version { TStamp := 0, IsApplied := false }) := by
  refine ⟨?_, ?_, ?_, ?_⟩
  · rw [← selectLatest_eq_nil_iff]
    unfold QueryRowScan
    rw [hread]
    rcases selectLatest_cases db.goose_db_version version with hs | ⟨r, hs⟩ <;> simp [hs]
  · unfold QueryRowScan
    rw [hread]
    rcases selectLatest_cases db.goose_db_version version with hs | ⟨r, hs⟩
    · simp [hs]
    · right
      have hr := selectLatest_eq_singleton db.goose_db_version version r hs
      simp only [hs, true_and]
      exact ⟨r, hr.1, hr.2.1, hr.2.2, rfl⟩
  · intro strictMode ex conf source
    have hscan : (QueryRowScan db version { TStamp := 0, IsApplied := false }).2.IsApplied =
        !isPending db version := by
      unfold QueryRowScan isPending
      rw [hread]
      rcases selectLatest_cases db.goose_db_version version with hs | ⟨r, hs⟩ <;> simp [hs]
    rw [hscan]
    cases hp : isPending db version with
    | false =>
      rw [runPendingMigration_of_not_pending strictMode ex conf db version source hp]
      simp [executorCalls, Event.isExecutorCall]
    | true =>
      rw [runPendingMigration_of_pending strictMode ex conf db version source hp, dispatch_events]
      cases (dispatch ex conf db version source).1 <;> cases strictMode <;>
        by_cases hgo : Ext source = ".go" <;> by_cases hsql : Ext source = ".sql" <;>
        simp [executorCalls, Event.isExecutorCall, knownKind, hgo, hsql]
  · intro db2 hrows hread2
    unfold QueryRowScan
    rw [hread, hread2, hrows]

/-- C6 at the input of the claim: version 7 applied at time 100 and rolled back at time
200 is not applied, in either order of the two rows in the table; and so for all times
`T1 < T2`. -/
theorem ledger_query_most_recent_witness :
    rolledBackDB.readError = none ∧
      QueryRowScan rolledBackDB 7 { TStamp := 0, IsApplied := false } =
        (ScanError.nil, { TStamp := 200, IsApplied := false }) ∧
      QueryRowScan { rolledBackDB with goose_db_version := rolledBackDB.goose_db_version.reverse }
          7 { TStamp := 0, IsApplied := false } =
        (ScanError.nil, { TStamp := 200, IsApplied := false }) ∧
      isPending rolledBackDB 7 = true ∧
      ((QueryRowScan rolledBackDB 7 { TStamp := 0, IsApplied := false }).1 = ScanError.ErrNoRows ↔
        ∀ r ∈ rolledBackDB.goose_db_version, r.version_id ≠ 7) ∧
      (∀ T1 T2 : Int, T1 < T2 →
        selectLatest [{ version_id := 7, tstamp := T1, is_applied := true },
            { version_id := 7, tstamp := T2, is_applied := false }] 7 =
          [{ version_id := 7, tstamp := T2, is_applied := false }]) :=
  ⟨rfl, by decide, by decide, by decide, (ledger_query_most_recent rolledBackDB 7 rfl).1,
    fun T1 T2 h => by
      simp [selectLatest, List.insertionSort, List.orderedInsert, not_le.mpr h]⟩

/-- C7, what the code does: for a pending version whose source has neither extension
`.go` nor `.sql`, `runPendingMigration` calls no executor and prints the success record
`OK` with the base name of the source. -/
theorem unknown_kind_prints_ok (strictMode : Bool) (ex : Executors) (conf : DBConf) (db : DB)
    (version : Int) (source : String) (hp : isPending db version = true)
    (hk : knownKind source = false) :
    runPendingMigration strictMode ex conf db version source =
      { db := db, events := [Event.query version, Event.println "OK   " (Base source)],
        fatal := false } :=
  runPendingMigration_of_unknown_kind strictMode ex conf db version source hp hk

/-- C7 at a concrete input: version 7 with source `007_notes.txt` on the empty ledger. -/
theorem unknown_kind_prints_ok_witness :
    isPending emptyDB 7 = true ∧ knownKind "db/migrations/007_notes.txt" = false ∧
      runPendingMigration false (demoExecutors []) demoConf emptyDB 7
          "db/migrations/007_notes.txt" =
        { db := emptyDB, events := [Event.query 7, Event.println "OK   " "007_notes.txt"],
          fatal := false } :=
  ⟨by decide, by decide,
    (unknown_kind_prints_ok false (demoExecutors []) demoConf emptyDB 7
      "db/migrations/007_notes.txt" (by decide) (by decide)).trans (by decide)⟩

/-- C8, as the code has it: assume an executor that succeeds appends to the ledger one
row marking its version applied, later than the rows of that version, and nothing else
changes the database (a failing executor leaves it as it is). Run the loop over
`pre ++ m :: post` from `db0`, then a second time from the database the first run left,
and let the first run reach `m`. Then (1) the second run reaches `m` too; (2) if the
first run found `m` applied, or could not read the ledger, or `m` is of a known kind and
its executor succeeded, the second run skips `m`: only the query, no executor call, no
record, database untouched;
(3) if the executor of `m` failed in the first run and the versions are unique, `m` is
still pending in the second run and its executor is called again, once; (4) if the first
run reported no failure at all, the second run calls no executor, changes nothing and
completes. -/
theorem second_run_outcomes (strictMode : Bool) (ex : Executors) (conf : DBConf) (db0 : DB)
    (pre post : List Migration) (m : Migration) (hex : RecordsSuccess ex)
    (hreach : (runLoop strictMode ex conf db0 pre).fatal = false) :
    (runLoop strictMode ex conf (dbAfter strictMode ex conf db0 (pre ++ m :: post)) pre).fatal =
        false ∧
      ((isApplied (dbAfter strictMode ex conf db0 pre) m.Version = true ∨
          (dbAfter strictMode ex conf db0 pre).readError ≠ none ∨
          (isPending (dbAfter strictMode ex conf db0 pre) m.Version = true ∧
            knownKind m.Source = true ∧
            (dispatch ex conf (dbAfter strictMode ex conf db0 pre) m.Version m.Source).1 = none)) →
        runPendingMigration strictMode ex conf
            (dbAfter strictMode ex conf (dbAfter strictMode ex conf db0 (pre ++ m :: post)) pre)
            m.Version m.Source =
          { db := dbAfter strictMode ex conf
              (dbAfter strictMode ex conf db0 (pre ++ m :: post)) pre,
            events := [Event.query m.Version], fatal := false }) ∧
      (∀ err : GoError, ((pre ++ m :: post).map Migration.Version).Nodup →
        isPending (dbAfter strictMode ex conf db0 pre) m.Version = true →
        (dispatch ex conf (dbAfter strictMode ex conf db0 pre) m.Version m.Source).1 = some err →
        isPending
            (dbAfter strictMode ex conf (dbAfter strictMode ex conf db0 (pre ++ m :: post)) pre)
            m.Version = true ∧
          executorCalls (runPendingMigration strictMode ex conf
              (dbAfter strictMode ex conf (dbAfter strictMode ex conf db0 (pre ++ m :: post)) pre)
              m.Version m.Source).events =
            [if Ext m.Source = ".go" then Event.runGo m.Source m.Version
              else Event.runSQL m.Source m.Version]) ∧
      ((runLoop strictMode ex conf db0 (pre ++ m :: post)).events.any Event.isFailure = false →
        dbAfter strictMode ex conf (dbAfter strictMode ex conf db0 (pre ++ m :: post))
            (pre ++ m :: post) =
          dbAfter strictMode ex conf db0 (pre ++ m :: post) ∧
        (runLoop strictMode ex conf (dbAfter strictMode ex conf db0 (pre ++ m :: post))
          (pre ++ m :: post)).fatal = false ∧
        executorCalls (runLoop strictMode ex conf
          (dbAfter strictMode ex conf db0 (pre ++ m :: post)) (pre ++ m :: post)).events = []) := by
  simp only [dbAfter]
  have hR1 := runLoop_append_db strictMode ex conf db0 pre (m :: post) hreach
  have hT := runLoop_keeps strictMode ex conf hex (m :: post)
    (runLoop strictMode ex conf db0 pre).db
  rw [← hR1] at hT
  have hP := runLoop_keeps strictMode ex conf hex pre
    (runLoop strictMode ex conf db0 (pre ++ m :: post)).db
  refine ⟨?_, ?_, ?_, ?_⟩
  · cases strictMode with
    | false => exact runLoop_lenient_fatal ex conf _ pre
    | true =>
      have hset := (runLoop_clean true ex conf hex pre db0
        (runLoop_strict_clean ex conf pre db0 hreach)).2.2.2
      refine (runLoop_settled true ex conf _ pre ?_).2.1
      intro x hx
      rcases hset x hx with h | h | h
      · exact Or.inl (hT.2.1 _ h)
      · exact Or.inr (Or.inl (by rw [hT.1]; exact h))
      · exact Or.inr (Or.inr h)
  · intro hA
    have hA2 : (runLoop strictMode ex conf db0 pre).db.readError ≠ none ∨
        (isApplied (runLoop strictMode ex conf db0 pre).db m.Version = true ∨
          (isPending (runLoop strictMode ex conf db0 pre).db m.Version = true ∧
            knownKind m.Source = true ∧
            (dispatch ex conf (runLoop strictMode ex conf db0 pre).db m.Version m.Source).1 =
              none)) := by
      rcases hA with h | h | h
      · exact Or.inr (Or.inl h)
      · exact Or.inl h
      · exact Or.inr (Or.inr h)
    rcases hA2 with hE | hA3
    · have hE2 : (runLoop strictMode ex conf
          (runLoop strictMode ex conf db0 (pre ++ m :: post)).db pre).db.readError ≠ none := by
        rw [hP.1, hT.1]
        exact hE
      cases hE3 : (runLoop strictMode ex conf
          (runLoop strictMode ex conf db0 (pre ++ m :: post)).db pre).db.readError with
      | none => exact absurd hE3 hE2
      | some e =>
        exact runPendingMigration_of_not_pending strictMode ex conf _ m.Version m.Source
          (isPending_false_of_readError _ _ e hE3)
    · have happ1 := isApplied_after_first_run strictMode ex conf _ m post hex hA3
      rw [← hR1] at happ1
      exact runPendingMigration_of_not_pending strictMode ex conf _ m.Version m.Source
        (isPending_false_of_isApplied _ _ (hP.2.1 _ happ1))
  · intro err hnd hp hfail
    rw [List.map_append, List.map_cons] at hnd
    have hnd2 := List.nodup_middle.mp hnd
    have hnotin := (List.nodup_cons.mp hnd2).1
    have hnotpre : m.Version ∉ pre.map Migration.Version :=
      fun h => hnotin (List.mem_append_left _ h)
    have hnotpost : m.Version ∉ post.map Migration.Version :=
      fun h => hnotin (List.mem_append_right _ h)
    have hp1 := isPending_after_failure strictMode ex conf _ m post err hex hnotpost hp hfail
    rw [← hR1] at hp1
    have hp2 : isPending (runLoop strictMode ex conf
        (runLoop strictMode ex conf db0 (pre ++ m :: post)).db pre).db m.Version = true := by
      rw [isPending_congr _ _ m.Version hP.1 (hP.2.2 _ hnotpre)]
      exact hp1
    refine ⟨hp2, ?_⟩
    have hk := knownKind_of_dispatch_error ex conf _ m.Version m.Source err hfail
    simp only [knownKind, Bool.or_eq_true, decide_eq_true_eq] at hk
    by_cases hgo : Ext m.Source = ".go"
    · rw [((executorCalls_of_pending strictMode ex conf _ m.Version m.Source hp2).2 hgo).1]
      simp [hgo]
    · rw [((executorCalls_of_pending strictMode ex conf _ m.Version m.Source hp2).1
        (hk.resolve_left hgo)).1]
      simp [hgo]
  · intro hclean
    have h := runLoop_settled strictMode ex conf _ (pre ++ m :: post)
      (runLoop_clean strictMode ex conf hex (pre ++ m :: post) db0 hclean).2.2.2
    exact ⟨h.1, h.2.1, h.2.2.1⟩

/-- C8, as the code has it, at the input of the counterexample: migrations 1, 2, 3 with
migration 2 failing. In the second run migration 1 is skipped and migration 2, reached
again and still pending, has its executor called again. -/
theorem second_run_outcomes_witness :
    RecordsSuccess (demoExecutors [2]) ∧
      runPendingMigration false (demoExecutors [2]) demoConf
          (dbAfter false (demoExecutors [2]) demoConf
            (dbAfter false (demoExecutors [2]) demoConf emptyDB [m1, m2, m3]) [])
          m1.Version m1.Source =
        { db := { goose_db_version := [{ version_id := 1, tstamp := 0, is_applied := true },
                    { version_id := 3, tstamp := 1, is_applied := true }],
                  readError := none },
          events := [Event.query 1], fatal := false } ∧
      executorCalls (runPendingMigration false (demoExecutors [2]) demoConf
          (dbAfter false (demoExecutors [2]) demoConf
            (dbAfter false (demoExecutors [2]) demoConf emptyDB [m1, m2, m3]) [m1])
          m2.Version m2.Source).events =
        [Event.runGo "db/migrations/002_orders.go" 2] :=
  ⟨demoExecutors_recordsSuccess [2],
    ((second_run_outcomes false (demoExecutors [2]) demoConf emptyDB [] [m2, m3] m1
      (demoExecutors_recordsSuccess [2]) (by decide)).2.1 (by decide)).trans (by decide),
    ((second_run_outcomes false (demoExecutors [2]) demoConf emptyDB [m1] [m3] m2
      (demoExecutors_recordsSuccess [2]) (by decide)).2.2.1 "migration failed"
        (by decide) (by decide) (by decide)).2.trans (by decide)⟩

/-- C8 fails as stated: the executors record their successes, migration 2 fails in both
runs; in the second run migrations 1 and 3 are skipped but migration 2 is run again
and recorded as failed, so not every migration of the second run is Skipped. -/
theorem second_run_retries_failed :
    RecordsSuccess (demoExecutors [2]) ∧
      (runLoop false (demoExecutors [2]) demoConf
        (runLoop false (demoExecutors [2]) demoConf emptyDB [m1, m2, m3]).db [m1, m2, m3]).events =
        [Event.query 1,
          Event.query 2, Event.runGo "db/migrations/002_orders.go" 2,
          Event.println "FAIL " "002_orders.go",
          Event.query 3] :=
  ⟨demoExecutors_recordsSuccess [2], by decide⟩

/-- C9, as the code has it: for a pending version and a source of a known kind (extension
`.go` or `.sql`), `runPendingMigration` makes exactly one executor call, chosen by the
extension: `.sql` gives `RunSQLMigration` with this version and source and no call of
`RunGoMigration`, `.go` gives `RunGoMigration` with this version and source and no call of
`RunSQLMigration`; the database afterwards is the one that executor returned. -/
theorem dispatch_by_kind (strictMode : Bool) (ex : Executors) (conf : DBConf) (db : DB)
    (version : Int) (source : String) (hp : isPending db version = true)
    (hk : knownKind source = true) :
    (executorCalls (runPendingMigration strictMode ex conf db version source).events).length = 1 ∧
    (Ext source = ".sql" →
      executorCalls (runPendingMigration strictMode ex conf db version source).events =
          [Event.runSQL source version] ∧
        (runPendingMigration strictMode ex conf db version source).db =
          (ex.RunSQLMigration conf db source version true).2) ∧
    (Ext source = ".go" →
      executorCalls (runPendingMigration strictMode ex conf db version source).events =
          [Event.runGo source version] ∧
        (runPendingMigration strictMode ex conf db version source).db =
          (ex.RunGoMigration conf source version true db).2) := by
  have h := executorCalls_of_pending strictMode ex conf db version source hp
  refine ⟨?_, h.1, h.2⟩
  simp only [knownKind, Bool.or_eq_true, decide_eq_true_eq] at hk
  rcases hk with hgo | hsql
  · rw [(h.2 hgo).1]
    rfl
  · rw [(h.1 hsql).1]
    rfl

/-- C9, as the code has it, at a concrete input: migration 1 (SQL) on the empty ledger. -/
theorem dispatch_by_kind_witness :
    isPending emptyDB m1.Version = true ∧ knownKind m1.Source = true ∧
      Ext m1.Source = ".sql" ∧
      executorCalls (runPendingMigration false (demoExecutors []) demoConf emptyDB
        m1.Version m1.Source).events = [Event.runSQL m1.Source m1.Version] :=
  ⟨by decide, by decide, by decide,
    ((dispatch_by_kind false (demoExecutors []) demoConf emptyDB m1.Version m1.Source
      (by decide) (by decide)).2.1 (by decide)).1⟩

/-- C9 fails as stated: version 7 with source `007_notes.txt` is pending on the empty
ledger, and the call for it makes no executor call, not exactly one. -/
theorem pending_unknown_kind_not_dispatched :
    isPending emptyDB 7 = true ∧
      Ext "db/migrations/007_notes.txt" = ".txt" ∧
      executorCalls (runPendingMigration false (demoExecutors []) demoConf emptyDB 7
        "db/migrations/007_notes.txt").events = [] ∧
      (executorCalls (runPendingMigration false (demoExecutors []) demoConf emptyDB 7
        "db/migrations/007_notes.txt").events).length ≠ 1 := by
  decide

/-- C10, what the code does: with `-strict`, migration 1 succeeding and migration 2
failing, `main` ends through `log.Fatalf` with exit status 1 and the database handle
still open: the deferred `db.Close()` has not run. Without `-strict` the same input ends
with `main` returning, exit status 0 and the handle closed. -/
theorem fatal_exit_leaves_handle_open :
    main (demoEnv true [2] emptyDB [m3, m2, m1]) =
      { events := [Event.printStatus "development",
          Event.query 1, Event.runSQL "db/migrations/001_users.sql" 1,
          Event.println "OK   " "001_users.sql",
          Event.query 2, Event.runGo "db/migrations/002_orders.go" 2,
          Event.fatalf "migration failed"],
        handle := Handle.opened,
        exitCode := 1,
        db := some { goose_db_version := [{ version_id := 1, tstamp := 0, is_applied := true }],
                     readError := none } } ∧
      (main (demoEnv false [2] emptyDB [m3, m2, m1])).handle = Handle.closed ∧
      (main (demoEnv false [2] emptyDB [m3, m2, m1])).exitCode = 0 := by
  decide

end GooseTinker
